import Mathlib

/-!
Shallow embedding of the shvlog threshold-resolution engine
(`src/lib.rs`: `LogConfig`, its parsing/serialization helpers, and the
`LogLineFilter::write` accept/reject decision), together with theorems
settling the specification claims.

The Rust code stores tables in `HashMap<String, log::Level>`, whose
iteration order is unspecified.  Tables are modelled as association lists
with insert-overwrite semantics; statements that depend on iteration
order quantify over permutations of the table.
-/

namespace Shvlog

instance {ε α : Type} [DecidableEq ε] [DecidableEq α] : DecidableEq (Except ε α) := fun
  | .ok a, .ok b =>
    if h : a = b then .isTrue (by rw [h]) else .isFalse (by simp [h])
  | .ok _, .error _ => .isFalse (by simp)
  | .error _, .ok _ => .isFalse (by simp)
  | .error a, .error b =>
    if h : a = b then .isTrue (by rw [h]) else .isFalse (by simp [h])

/-- The five severities of the `log` crate.  In the crate the enum is
declared `Error = 1, Warn, Info, Debug, Trace`, so the derived order is
`Error < Warn < Info < Debug < Trace`. -/
inductive Level where
  | Error
  | Warn
  | Info
  | Debug
  | Trace
deriving DecidableEq, Repr

/-- The discriminant of `log::Level` (`Error = 1` … `Trace = 5`); the
crate's derived `PartialOrd` compares these. -/
def Level.ord : Level → Nat
  | .Error => 1
  | .Warn => 2
  | .Info => 3
  | .Debug => 4
  | .Trace => 5

/-- `log::Level`'s `Display` (via `LOG_LEVEL_NAMES`): the full
upper-case name. -/
def Level.display : Level → String
  | .Error => "ERROR"
  | .Warn => "WARN"
  | .Info => "INFO"
  | .Debug => "DEBUG"
  | .Trace => "TRACE"

/-- The urgency ordinal of the order used by the spec's prose,
`Trace < Debug < Info < Warn < Error` (Trace least urgent). -/
def Level.urg : Level → Nat
  | .Trace => 0
  | .Debug => 1
  | .Info => 2
  | .Warn => 3
  | .Error => 4

/-- `s1 ≤ s2` in the spec's order `Trace < Debug < Info < Warn < Error`. -/
def specLe (s1 s2 : Level) : Prop := s1.urg ≤ s2.urg

instance (s1 s2 : Level) : Decidable (specLe s1 s2) := by
  unfold specLe
  infer_instance

/-- Is `pre` a (contiguous) leading segment of the second list?  Helper
for the substring test of Rust's `str::find`. -/
def isPrefixList : List Char → List Char → Bool
  | [], _ => true
  | _ :: _, [] => false
  | a :: as, b :: bs => a == b && isPrefixList as bs

/-- Does `pat` occur contiguously inside `s`?  (List-of-characters
form.) -/
def isSubstringList : List Char → List Char → Bool
  | pat, [] => pat.isEmpty
  | pat, c :: rest => isPrefixList pat (c :: rest) || isSubstringList pat rest

/-- Rust's `s.find(pat).is_some()`: `pat` occurs contiguously in `s`.
The empty pattern matches every string. -/
def strContains (s pat : String) : Bool :=
  isSubstringList pat.data s.data

/-- Worker for `splitChar`: `acc` is the reversed current chunk. -/
def splitCharAux (sep : Char) : List Char → List Char → List (List Char)
  | [], acc => [acc.reverse]
  | c :: rest, acc =>
    if c == sep then acc.reverse :: splitCharAux sep rest []
    else splitCharAux sep rest (c :: acc)

/-- Rust's `str::split(sep)`: split on every occurrence of `sep`,
keeping empty chunks (`"a,,b"` → `["a", "", "b"]`, `""` → `[""]`). -/
def splitChar (sep : Char) (s : String) : List String :=
  (splitCharAux sep s.data []).map (fun l => ⟨l⟩)

/-- The `match level_abbr` of `parse_level_strings`: single letters map
to their severity, anything else to `Info`. -/
def abbrevToLevel (a : String) : Level :=
  if a = "T" then .Trace
  else if a = "D" then .Debug
  else if a = "I" then .Info
  else if a = "W" then .Warn
  else if a = "E" then .Error
  else .Info

/-- `HashMap::insert` on the association-list model: overwrite the
binding of `k` (keys stay unique). -/
def insertLevel (levels : List (String × Level)) (k : String) (v : Level) :
    List (String × Level) :=
  (levels.filter (fun p => !(p.1 == k))) ++ [(k, v)]

/-- The inner loop of `parse_level_strings` over the comma-separated
entries of one specification string.  An entry with more than one colon
hits the Rust `panic!("Cannot happen")`, modelled as `Except.error`. -/
def parseEntries : List String → List (String × Level) →
    Except String (List (String × Level))
  | [], levels => .ok levels
  | e :: rest, levels =>
    if e = "" then parseEntries rest levels
    else
      match splitChar ':' e with
      | [t] => parseEntries rest (insertLevel levels t (abbrevToLevel "T"))
      | [t, a] => parseEntries rest (insertLevel levels t (abbrevToLevel a))
      | _ => .error "Cannot happen"

/-- The outer loop of `parse_level_strings` over the slice of
specification strings. -/
def parseSpecs : List String → List (String × Level) →
    Except String (List (String × Level))
  | [], levels => .ok levels
  | s :: rest, levels =>
    match parseEntries (splitChar ',' s) levels with
    | .ok levels' => parseSpecs rest levels'
    | .error msg => .error msg

/-- `LogConfig::parse_level_strings`. -/
def parse_level_strings (level_strings : List String) :
    Except String (List (String × Level)) :=
  parseSpecs level_strings []

/-- `LogConfig`: the module-pattern and target-pattern threshold
tables. -/
structure LogConfig where
  module_levels : List (String × Level)
  target_levels : List (String × Level)
deriving DecidableEq, Repr

/-- `LogConfig::new`: parse both slices (module first, as in the Rust
struct literal), then insert the `("", Info)` fallback if the module
table came out empty.  A parse panic aborts construction. -/
def LogConfig.new (module_tresholds target_tresholds : List String) :
    Except String LogConfig :=
  match parse_level_strings module_tresholds with
  | .error msg => .error msg
  | .ok m =>
    match parse_level_strings target_tresholds with
    | .error msg => .error msg
    | .ok t =>
      .ok ⟨if m.isEmpty then insertLevel m "" .Info else m, t⟩

/-- `LogConfig::levels_to_string`: comma-join of `pattern:DISPLAY`
entries, via the same `fold` as the source. -/
def levels_to_string (levels : List (String × Level)) : String :=
  (levels.map (fun p => p.1 ++ ":" ++ p.2.display)).foldl
    (fun acc s => if acc.isEmpty then s else acc ++ "," ++ s) ""

/-- Tail of a comma-join: `"," ++ s` for each remaining element.  Used
to give the serializer's fold a closed form. -/
def joinTail : List String → String
  | [] => ""
  | s :: rest => "," ++ s ++ joinTail rest

/-- `LogConfig::verbosity_string`. -/
def LogConfig.verbosity_string (cfg : LogConfig) : String :=
  let ret : String := ""
  let ret := if !cfg.module_levels.isEmpty then
      "-d " ++ levels_to_string cfg.module_levels
    else ret
  let ret := if !cfg.target_levels.isEmpty then
      (if !ret.isEmpty then ret ++ " " else ret) ++
        ("-v " ++ levels_to_string cfg.target_levels)
    else ret
  ret

/-- The loop of `LogLineFilter::write` that computes `verbosity_level`:
first entry (in iteration order) whose pattern is a substring of the
candidate wins; `Info` if none matches. -/
def scanTable : List (String × Level) → String → Level
  | [], _ => .Info
  | (key, level) :: rest, s =>
    if strContains s key then level else scanTable rest s

/-- The `verbosity_level` resolved by `LogLineFilter::write` for a given
module path and target: the target table governs when
`is_target_set = (module != target)`, the module table otherwise. -/
def LogConfig.verbosityLevelOf (cfg : LogConfig) (module target : String) :
    Level :=
  if module ≠ target then scanTable cfg.target_levels target
  else scanTable cfg.module_levels module

/-- The accept/reject decision of `LogLineFilter::write`: the line is
written iff `record.level() <= verbosity_level` under the `log` crate's
derived order (`Error < Warn < Info < Debug < Trace`). -/
def LogConfig.decide (cfg : LogConfig) (level : Level)
    (module target : String) : Bool :=
  Nat.ble level.ord (cfg.verbosityLevelOf module target).ord

/-! ### Helper lemmas -/

/-- The `log`-crate comparison `a <= b` done by the filter is exactly
`b ≤ a` in the spec's urgency order. -/
theorem ble_ord_iff (a b : Level) :
    Nat.ble a.ord b.ord = true ↔ specLe b a := by
  cases a <;> cases b <;> decide

/-- When no pattern of the table is a substring of the candidate, the
scan leaves `verbosity_level` at its initial value `Info`. -/
theorem scanTable_eq_info (table : List (String × Level)) (s : String)
    (h : ∀ p ∈ table, strContains s p.1 = false) :
    scanTable table s = .Info := by
  induction table with
  | nil => rfl
  | cons p rest ih =>
    obtain ⟨key, level⟩ := p
    have hk : strContains s key = false := h _ (List.mem_cons_self _ _)
    simp only [scanTable, hk, if_neg Bool.false_ne_true]
    exact ih fun q hq => h q (List.mem_cons_of_mem _ hq)

/-- A list permuting a two-element list is one of its two orderings. -/
theorem perm_pair_cases {α : Type} {l : List α} {a b : α}
    (h : l.Perm [a, b]) : l = [a, b] ∨ l = [b, a] := by
  have hlen : l.length = 2 := h.length_eq
  match l, hlen with
  | [x, y], _ =>
    have hx : x ∈ [a, b] := h.subset (List.mem_cons_self _ _)
    rcases List.mem_pair.mp hx with hxa | hxb
    · left
      rw [hxa] at h ⊢
      have hy : y = b := by simpa using List.perm_singleton.mp h.cons_inv
      rw [hy]
    · right
      rw [hxb] at h ⊢
      have hswap : ([b, a] : List α).Perm [a, b] := List.Perm.swap a b []
      have hy : y = a := by
        simpa using List.perm_singleton.mp (h.trans hswap.symm).cons_inv
      rw [hy]

/-- A chunk with no separator is returned whole (prefixed by the
accumulated reversed chunk). -/
theorem splitCharAux_no_sep (sep : Char) (l acc : List Char) (h : sep ∉ l) :
    splitCharAux sep l acc = [acc.reverse ++ l] := by
  induction l generalizing acc with
  | nil => simp [splitCharAux]
  | cons c rest ih =>
    have hc : ¬c = sep := fun hcs => h (hcs ▸ List.mem_cons_self c rest)
    have hrest : sep ∉ rest := fun hr => h (List.mem_cons_of_mem _ hr)
    simp [splitCharAux, hc, ih _ hrest]

/-- Splitting peels off the first separator-free chunk. -/
theorem splitCharAux_sep (sep : Char) (l₁ l₂ acc : List Char)
    (h : sep ∉ l₁) :
    splitCharAux sep (l₁ ++ sep :: l₂) acc =
      (acc.reverse ++ l₁) :: splitCharAux sep l₂ [] := by
  induction l₁ generalizing acc with
  | nil => simp [splitCharAux]
  | cons c rest ih =>
    have hc : ¬c = sep := fun hcs => h (hcs ▸ List.mem_cons_self c rest)
    have hrest : sep ∉ rest := fun hr => h (List.mem_cons_of_mem _ hr)
    simp [splitCharAux, hc, ih _ hrest]

/-- A string without the separator splits into itself alone. -/
theorem splitChar_eq_single (sep : Char) (s : String) (h : sep ∉ s.data) :
    splitChar sep s = [s] := by
  unfold splitChar
  rw [splitCharAux_no_sep sep s.data [] h]
  simp

/-- `pattern ++ ":" ++ abbrev` splits on `':'` into the two pieces when
neither contains a colon. -/
theorem splitChar_colon_append (p a : String) (hp : ':' ∉ p.data)
    (ha : ':' ∉ a.data) : splitChar ':' (p ++ ":" ++ a) = [p, a] := by
  have hdata : (p ++ ":" ++ a).data = p.data ++ ':' :: a.data := by
    show p.data ++ (":" : String).data ++ a.data = p.data ++ ':' :: a.data
    simp
  unfold splitChar
  rw [hdata, splitCharAux_sep ':' p.data a.data [] hp,
    splitCharAux_no_sep ':' a.data [] ha]
  simp

/-- An unrecognized abbreviation falls to the default arm, `Info`. -/
theorem abbrevToLevel_unknown (a : String) (hT : a ≠ "T") (hD : a ≠ "D")
    (hI : a ≠ "I") (hW : a ≠ "W") (hE : a ≠ "E") :
    abbrevToLevel a = .Info := by
  unfold abbrevToLevel
  rw [if_neg hT, if_neg hD, if_neg hI, if_neg hW, if_neg hE]

/-! ### C1 -/

/-- C1 counterexample: with module spec `"a:W"`, an event with module
path `"abc"` (target unset) resolves threshold Warn; severity Trace
satisfies Trace ≤ Warn in the spec's order, so the claim predicts
acceptance, but the filter rejects it. -/
theorem C1_counterexample :
    LogConfig.new ["a:W"] [] = .ok ⟨[("a", .Warn)], []⟩ ∧
    (LogConfig.mk [("a", .Warn)] []).verbosityLevelOf "abc" "abc" = .Warn ∧
    specLe .Trace .Warn ∧
    (LogConfig.mk [("a", .Warn)] []).decide .Trace "abc" "abc" = false := by
  decide

/-- C1 amended: the filter accepts an event exactly when the resolved
threshold is ≤ the event's severity in the order
Trace < Debug < Info < Warn < Error — i.e. the severity is at least as
urgent as the threshold floor (not `severity ≤ threshold` in that
order). -/
theorem C1_accept_iff (cfg : LogConfig) (level : Level)
    (module target : String) :
    cfg.decide level module target = true ↔
      specLe (cfg.verbosityLevelOf module target) level :=
  ble_ord_iff level (cfg.verbosityLevelOf module target)

/-! ### C2 -/

/-- C2 counterexample: the unknown abbreviation in `"mod:Z"` parses to
Info (the default match arm), not Trace, and a Trace-severity event
whose module path contains "mod" is rejected rather than accepted. -/
theorem C2_counterexample :
    parse_level_strings ["mod:Z"] = .ok [("mod", .Info)] ∧
    Level.Info ≠ Level.Trace ∧
    LogConfig.new ["mod:Z"] [] = .ok ⟨[("mod", .Info)], []⟩ ∧
    (LogConfig.mk [("mod", .Info)] []).decide .Trace "mod.x" "mod.x" = false := by
  decide

/-- C2 amended: every entry `pattern:abbrev` whose abbreviation is not
one of T, D, I, W, E maps the pattern to Info (not Trace); consequently,
for the spec entry `"mod:Z"`, events whose module path contains "mod"
are accepted exactly when their severity is Info, Warn or Error. -/
theorem C2_unknown_abbrev (p a : String)
    (hpcm : ',' ∉ p.data) (hpcl : ':' ∉ p.data)
    (hacm : ',' ∉ a.data) (hacl : ':' ∉ a.data)
    (hT : a ≠ "T") (hD : a ≠ "D") (hI : a ≠ "I") (hW : a ≠ "W")
    (hE : a ≠ "E") :
    parse_level_strings [p ++ ":" ++ a] = .ok [(p, .Info)] ∧
    LogConfig.new ["mod:Z"] [] = .ok ⟨[("mod", .Info)], []⟩ ∧
    ∀ level : Level,
      (LogConfig.mk [("mod", .Info)] []).decide level "mod.x" "mod.x" =
        Nat.ble level.ord Level.Info.ord := by
  refine ⟨?_, by decide, fun level => by cases level <;> decide⟩
  have hdata : (p ++ ":" ++ a).data = p.data ++ ':' :: a.data := by
    show (p.data ++ (':' :: [])) ++ a.data = p.data ++ ':' :: a.data
    simp
  have hnocomma : ',' ∉ (p ++ ":" ++ a).data := by
    rw [hdata]
    simp only [List.mem_append, List.mem_cons]
    rintro (hm | hm | hm)
    · exact hpcm hm
    · cases hm
    · exact hacm hm
  have hne : ¬(p ++ ":" ++ a) = "" := by
    rw [String.ext_iff, hdata]
    simp
  simp [parse_level_strings, parseSpecs, parseEntries,
    splitChar_eq_single ',' _ hnocomma, hne,
    splitChar_colon_append p a hpcl hacl,
    abbrevToLevel_unknown a hT hD hI hW hE, insertLevel]

/-- Witness for C2 at the spec's own example `"mod:Z"`. -/
theorem C2_unknown_abbrev_witness :
    parse_level_strings ["mod" ++ ":" ++ "Z"] = .ok [("mod", .Info)] ∧
    LogConfig.new ["mod:Z"] [] = .ok ⟨[("mod", .Info)], []⟩ ∧
    (LogConfig.mk [("mod", .Info)] []).decide .Trace "mod.x" "mod.x" =
      Nat.ble Level.Trace.ord Level.Info.ord := by
  have h := C2_unknown_abbrev "mod" "Z" (by decide) (by decide) (by decide)
    (by decide) (by decide) (by decide) (by decide) (by decide) (by decide)
  exact ⟨h.1, h.2.1, h.2.2 .Trace⟩

/-! ### C4 -/

/-- C4 counterexample: with threshold Warn, severity Error is accepted
while Trace (which is ≤ Error in the spec's order) is rejected, so
acceptance is not downward closed in that order. -/
theorem C4_counterexample :
    LogConfig.new ["a:W"] [] = .ok ⟨[("a", .Warn)], []⟩ ∧
    specLe .Trace .Error ∧
    (LogConfig.mk [("a", .Warn)] []).decide .Error "abc" "abc" = true ∧
    (LogConfig.mk [("a", .Warn)] []).decide .Trace "abc" "abc" = false := by
  decide

/-- C4 amended: acceptance is upward closed in the order
Trace < Debug < Info < Warn < Error: if the filter accepts severity s2,
it accepts every severity s1 ≥ s2 (at least as urgent), for the same
resolver and event fields. -/
theorem C4_monotone (cfg : LogConfig) (module target : String)
    (s1 s2 : Level) (hle : specLe s2 s1)
    (hacc : cfg.decide s2 module target = true) :
    cfg.decide s1 module target = true := by
  unfold LogConfig.decide at hacc ⊢
  rw [ble_ord_iff] at hacc ⊢
  exact Nat.le_trans hacc hle

/-- Witness for C4: Warn ≤ Error, Warn is accepted at threshold Warn,
hence Error is accepted. -/
theorem C4_monotone_witness :
    (LogConfig.mk [("a", .Warn)] []).decide .Error "abc" "abc" = true :=
  C4_monotone _ "abc" "abc" .Error .Warn (by decide) (by decide)

/-! ### C5 -/

/-- C5: for every successful construction, if the module specs parse to
an empty table then `module_levels` is exactly the fallback entry
`("", Info)`, and `target_levels` is exactly the parse result of the
target specs (no forced fallback). -/
theorem C5_tables_invariant (ms ts : List String) (cfg : LogConfig)
    (h : LogConfig.new ms ts = .ok cfg) :
    (parse_level_strings ms = .ok [] → cfg.module_levels = [("", .Info)]) ∧
    parse_level_strings ts = .ok cfg.target_levels := by
  unfold LogConfig.new at h
  cases hm : parse_level_strings ms with
  | error msg => rw [hm] at h; cases h
  | ok m =>
    rw [hm] at h
    cases ht : parse_level_strings ts with
    | error msg => rw [ht] at h; cases h
    | ok t =>
      rw [ht] at h
      injection h with h
      subst h
      refine ⟨fun hms => ?_, rfl⟩
      injection hms with hms
      subst hms
      simp [insertLevel]

/-- Witness for C5 at empty inputs. -/
theorem C5_tables_invariant_witness :
    (parse_level_strings [] = .ok ([] : List (String × Level)) →
      (LogConfig.mk [("", .Info)] []).module_levels = [("", .Info)]) ∧
    parse_level_strings [] = .ok (LogConfig.mk [("", .Info)] []).target_levels :=
  C5_tables_invariant [] [] ⟨[("", .Info)], []⟩ (by decide)

/-! ### C6 -/

/-- An entry with at least two colons (three split chunks) drives the
entry loop into the panic arm. -/
theorem parseEntries_error (entries : List String)
    (levels : List (String × Level))
    (h : ∃ e ∈ entries, 3 ≤ (splitChar ':' e).length) :
    ∃ msg, parseEntries entries levels = .error msg := by
  induction entries generalizing levels with
  | nil => simp at h
  | cons e rest ih =>
    have hrest : (∃ x ∈ rest, 3 ≤ (splitChar ':' x).length) ∨
        3 ≤ (splitChar ':' e).length := by
      rcases h with ⟨x, hx, hbad⟩
      rcases List.mem_cons.mp hx with hxe | hxr
      · exact Or.inr (hxe ▸ hbad)
      · exact Or.inl ⟨x, hxr, hbad⟩
    by_cases he : e = ""
    · subst he
      rcases hrest with hr | hbad
      · simpa [parseEntries] using ih levels hr
      · exact absurd hbad (by decide)
    · rcases hsp : splitChar ':' e with _ | ⟨t, _ | ⟨b, _ | ⟨c, l⟩⟩⟩
      · exact ⟨"Cannot happen", by simp [parseEntries, he, hsp]⟩
      · rcases hrest with hr | hbad
        · simpa [parseEntries, he, hsp] using
            ih (insertLevel levels t (abbrevToLevel "T")) hr
        · rw [hsp] at hbad
          simp at hbad
      · rcases hrest with hr | hbad
        · simpa [parseEntries, he, hsp] using
            ih (insertLevel levels t (abbrevToLevel b)) hr
        · rw [hsp] at hbad
          simp at hbad
      · exact ⟨"Cannot happen", by simp [parseEntries, he, hsp]⟩

/-- The spec-string loop propagates the panic of the entry loop. -/
theorem parseSpecs_error (specs : List String)
    (levels : List (String × Level))
    (h : ∃ s ∈ specs, ∃ e ∈ splitChar ',' s, 3 ≤ (splitChar ':' e).length) :
    ∃ msg, parseSpecs specs levels = .error msg := by
  induction specs generalizing levels with
  | nil => simp at h
  | cons s rest ih =>
    rcases h with ⟨x, hx, hbad⟩
    rcases List.mem_cons.mp hx with hxs | hxr
    · subst hxs
      obtain ⟨msg, hmsg⟩ := parseEntries_error _ levels hbad
      exact ⟨msg, by simp [parseSpecs, hmsg]⟩
    · cases hpe : parseEntries (splitChar ',' s) levels with
      | error msg => exact ⟨msg, by simp [parseSpecs, hpe]⟩
      | ok levels' =>
        obtain ⟨msg, hmsg⟩ := ih levels' ⟨x, hxr, hbad⟩
        exact ⟨msg, by simp [parseSpecs, hpe, hmsg]⟩

/-- C6: any input slice containing an entry with more than one colon
makes construction fail with an error; no resolver value is produced. -/
theorem C6_multicolon_fatal (ms ts : List String)
    (h : (∃ s ∈ ms, ∃ e ∈ splitChar ',' s, 3 ≤ (splitChar ':' e).length) ∨
         (∃ s ∈ ts, ∃ e ∈ splitChar ',' s, 3 ≤ (splitChar ':' e).length)) :
    ∃ msg, LogConfig.new ms ts = .error msg := by
  rcases h with hms | hts
  · obtain ⟨msg, hmsg⟩ := parseSpecs_error ms [] hms
    exact ⟨msg, by simp [LogConfig.new, parse_level_strings, hmsg]⟩
  · cases hm : parse_level_strings ms with
    | error msg => exact ⟨msg, by simp [LogConfig.new, hm]⟩
    | ok m =>
      obtain ⟨msg, hmsg⟩ := parseSpecs_error ts [] hts
      refine ⟨msg, ?_⟩
      unfold LogConfig.new
      rw [hm]
      unfold parse_level_strings
      rw [hmsg]

/-- Witness for C6 at the spec's example `"x:A:B"`. -/
theorem C6_multicolon_fatal_witness :
    ∃ msg, LogConfig.new ["x:A:B"] [] = .error msg :=
  C6_multicolon_fatal ["x:A:B"] [] (Or.inl (by decide))

/-! ### C7 -/

/-- C7: the resolver built from module specs `["a:W,b:E"]` and no target
specs has module table {"a" ↦ Warn, "b" ↦ Error}, and an Info event with
module path "abc" and unset target is rejected under every iteration
order of that table (both matching patterns carry thresholds excluding
Info). -/
theorem C7_info_rejected (l : List (String × Level))
    (h : l.Perm [("a", .Warn), ("b", .Error)]) :
    LogConfig.new ["a:W,b:E"] [] = .ok ⟨[("a", .Warn), ("b", .Error)], []⟩ ∧
    (LogConfig.mk l []).decide .Info "abc" "abc" = false := by
  refine ⟨by decide, ?_⟩
  rcases perm_pair_cases h with h' | h' <;> subst h' <;> decide

/-- Witness for C7 at the insertion order itself. -/
theorem C7_info_rejected_witness :
    LogConfig.new ["a:W,b:E"] [] = .ok ⟨[("a", .Warn), ("b", .Error)], []⟩ ∧
    (LogConfig.mk [("a", .Warn), ("b", .Error)] []).decide .Info "abc" "abc" = false :=
  C7_info_rejected _ (List.Perm.refl _)

/-! ### C8 -/

/-- C8: when target ≠ module path the decision scans only the target
table; with no matching target pattern the threshold is Info; and for
target specs `["db:E"]`, target `"db.primary"` (≠ module path) is
accepted at Error and rejected at Warn. -/
theorem C8_target_dispatch (cfg : LogConfig) (level : Level)
    (module target : String) (h : module ≠ target) :
    cfg.decide level module target =
      Nat.ble level.ord (scanTable cfg.target_levels target).ord ∧
    ((∀ p ∈ cfg.target_levels, strContains target p.1 = false) →
      cfg.decide level module target = Nat.ble level.ord Level.Info.ord) ∧
    LogConfig.new [] ["db:E"] = .ok ⟨[("", .Info)], [("db", .Error)]⟩ ∧
    (LogConfig.mk [("", .Info)] [("db", .Error)]).decide .Error "app.mod" "db.primary" = true ∧
    (LogConfig.mk [("", .Info)] [("db", .Error)]).decide .Warn "app.mod" "db.primary" = false := by
  refine ⟨?_, fun hnone => ?_, by decide, by decide, by decide⟩
  · simp [LogConfig.decide, LogConfig.verbosityLevelOf, h]
  · simp [LogConfig.decide, LogConfig.verbosityLevelOf, h,
      scanTable_eq_info cfg.target_levels target hnone]

/-- Witness for C8 with an empty target table. -/
theorem C8_target_dispatch_witness :
    (LogConfig.mk [] []).decide .Debug "m" "t" =
      Nat.ble Level.Debug.ord (scanTable ([] : List (String × Level)) "t").ord ∧
    (LogConfig.mk [] []).decide .Debug "m" "t" = Nat.ble Level.Debug.ord Level.Info.ord ∧
    LogConfig.new [] ["db:E"] = .ok ⟨[("", .Info)], [("db", .Error)]⟩ ∧
    (LogConfig.mk [("", .Info)] [("db", .Error)]).decide .Error "app.mod" "db.primary" = true ∧
    (LogConfig.mk [("", .Info)] [("db", .Error)]).decide .Warn "app.mod" "db.primary" = false := by
  have h := C8_target_dispatch ⟨[], []⟩ .Debug "m" "t" (by decide)
  exact ⟨h.1, h.2.1 (by decide), h.2.2.1, h.2.2.2.1, h.2.2.2.2⟩

/-! ### C9 -/

/-- C9: when the target equals the module path and no module pattern
matches the module path, the decision does not fail and uses the default
threshold Info; such a resolver is reachable from `new` since the
fallback entry only enters an otherwise-empty table. -/
theorem C9_module_default (ml tl : List (String × Level)) (level : Level)
    (m : String) (h : ∀ p ∈ ml, strContains m p.1 = false) :
    LogConfig.new ["a:W"] [] = .ok ⟨[("a", .Warn)], []⟩ ∧
    strContains "xyz" "a" = false ∧
    (LogConfig.mk ml tl).decide level m m = Nat.ble level.ord Level.Info.ord := by
  refine ⟨by decide, by decide, ?_⟩
  simp [LogConfig.decide, LogConfig.verbosityLevelOf, scanTable_eq_info ml m h]

/-- Witness for C9 at the reachable resolver `{"a" ↦ Warn}` and module
path "xyz". -/
theorem C9_module_default_witness :
    LogConfig.new ["a:W"] [] = .ok ⟨[("a", .Warn)], []⟩ ∧
    strContains "xyz" "a" = false ∧
    (LogConfig.mk [("a", .Warn)] []).decide .Debug "xyz" "xyz" =
      Nat.ble Level.Debug.ord Level.Info.ord :=
  C9_module_default [("a", .Warn)] [] .Debug "xyz" (by decide)

/-! ### C10 -/

/-- A string with nonempty character data is not `isEmpty`. -/
theorem str_isEmpty_false (s : String) (h : s.data ≠ []) :
    s.isEmpty = false := by
  cases hie : s.isEmpty
  · rfl
  · exact absurd (congrArg String.data ((String.isEmpty_iff s).mp hie)) h

/-- Closed form of `verbosity_string` for a nonempty module table. -/
theorem verbosity_string_formula (cfg : LogConfig)
    (h : cfg.module_levels ≠ []) :
    cfg.verbosity_string =
      "-d " ++ levels_to_string cfg.module_levels ++
        (if cfg.target_levels.isEmpty then "" else
          " -v " ++ levels_to_string cfg.target_levels) := by
  have hme : cfg.module_levels.isEmpty = false := by
    cases hcm : cfg.module_levels with
    | nil => exact absurd hcm h
    | cons q qs => rfl
  have hdm : ("-d " ++ levels_to_string cfg.module_levels).isEmpty = false := by
    refine str_isEmpty_false _ ?_
    show ("-d " : String).data ++ (levels_to_string cfg.module_levels).data ≠ []
    simp
  cases hte : cfg.target_levels.isEmpty with
  | true => simp [LogConfig.verbosity_string, hme, hte, String.append_empty]
  | false =>
    simp only [LogConfig.verbosity_string, hme, hte, hdm, Bool.not_false,
      Bool.not_true, if_pos, if_neg, ite_true, ite_false, if_true, if_false]
    rw [String.append_assoc ("-d " ++ levels_to_string cfg.module_levels)]
    rw [← String.append_assoc " " "-v " (levels_to_string cfg.target_levels)]
    have hsv : (" " : String) ++ "-v " = " -v " := by decide
    rw [hsv]
    simp

/-- C10: every constructed resolver has a nonempty module table, so
`verbosity_string` always starts with `"-d "`, and the `" -v …"` section
is appended exactly when the target table is nonempty. -/
theorem C10_verbosity_shape (ms ts : List String) (cfg : LogConfig)
    (h : LogConfig.new ms ts = .ok cfg) :
    cfg.module_levels ≠ [] ∧
    cfg.verbosity_string =
      "-d " ++ levels_to_string cfg.module_levels ++
        (if cfg.target_levels.isEmpty then "" else
          " -v " ++ levels_to_string cfg.target_levels) := by
  have hne : cfg.module_levels ≠ [] := by
    unfold LogConfig.new at h
    cases hm : parse_level_strings ms with
    | error msg => rw [hm] at h; cases h
    | ok m =>
      rw [hm] at h
      cases ht : parse_level_strings ts with
      | error msg => rw [ht] at h; cases h
      | ok t =>
        rw [ht] at h
        injection h with h
        subst h
        show (if m.isEmpty then insertLevel m "" .Info else m) ≠ []
        by_cases hie : m.isEmpty = true
        · simp [hie, insertLevel]
        · intro hnil
          rw [if_neg hie] at hnil
          exact hie (by rw [hnil]; rfl)
  exact ⟨hne, verbosity_string_formula cfg hne⟩

/-- Witness for C10 with empty module specs and one target spec. -/
theorem C10_verbosity_shape_witness :
    (LogConfig.mk [("", .Info)] [("db", .Error)]).module_levels ≠ [] ∧
    (LogConfig.mk [("", .Info)] [("db", .Error)]).verbosity_string =
      "-d " ++ levels_to_string [("", .Info)] ++
        (if ([("db", Level.Error)] : List (String × Level)).isEmpty then ""
         else " -v " ++ levels_to_string [("db", .Error)]) :=
  C10_verbosity_shape [] ["db:E"] ⟨[("", .Info)], [("db", .Error)]⟩ (by decide)

/-! ### C3 -/

/-- The serializer's fold, started from a nonempty accumulator, appends
a `","`-prefixed copy of every remaining element. -/
theorem foldl_comma_join (l : List String) (acc : String)
    (hacc : acc.isEmpty = false) :
    l.foldl (fun acc s => if acc.isEmpty then s else acc ++ "," ++ s) acc =
      acc ++ joinTail l := by
  induction l generalizing acc with
  | nil => simp [joinTail, String.append_empty]
  | cons s rest ih =>
    have hstep : (if acc.isEmpty then s else acc ++ "," ++ s) =
        acc ++ "," ++ s := by
      simp [hacc]
    rw [List.foldl_cons, hstep,
      ih (acc ++ "," ++ s) (str_isEmpty_false _ (by
        show (acc.data ++ (',' :: [])) ++ s.data ≠ []
        simp))]
    show _ = acc ++ ("," ++ s ++ joinTail rest)
    simp [String.append_assoc]

/-- `levels_to_string` of a nonempty table: first rendered entry, then
the comma-join tail of the rest. -/
theorem levels_to_string_cons (p : String × Level)
    (rest : List (String × Level)) :
    levels_to_string (p :: rest) =
      (p.1 ++ ":" ++ p.2.display) ++
        joinTail (rest.map (fun q => q.1 ++ ":" ++ q.2.display)) := by
  unfold levels_to_string
  rw [List.map_cons, List.foldl_cons]
  have h0 : (if ("" : String).isEmpty then p.1 ++ ":" ++ p.2.display
      else "" ++ "," ++ (p.1 ++ ":" ++ p.2.display)) =
      p.1 ++ ":" ++ p.2.display := rfl
  rw [h0]
  refine foldl_comma_join _ _ (str_isEmpty_false _ ?_)
  show (p.1.data ++ (':' :: [])) ++ p.2.display.data ≠ []
  simp

theorem display_no_colon (v : Level) : ':' ∉ v.display.data := by
  cases v <;> decide

theorem display_no_comma (v : Level) : ',' ∉ v.display.data := by
  cases v <;> decide

/-- A full display name is never one of the recognized single-letter
abbreviations, so re-parsing it yields `Info`. -/
theorem abbrevToLevel_display (v : Level) :
    abbrevToLevel v.display = .Info := by
  cases v <;> decide

theorem render_data (p : String × Level) :
    (p.1 ++ ":" ++ p.2.display).data = p.1.data ++ ':' :: p.2.display.data := by
  show (p.1.data ++ (':' :: [])) ++ p.2.display.data = _
  simp

theorem render_no_comma (p : String × Level)
    (h : ',' ∉ (p.1 : String).data) :
    ',' ∉ (p.1 ++ ":" ++ p.2.display).data := by
  rw [render_data]
  simp only [List.mem_append, List.mem_cons]
  rintro (hm | hm | hm)
  · exact h hm
  · cases hm
  · exact display_no_comma p.2 hm

theorem render_ne_empty (p : String × Level) :
    ¬(p.1 ++ ":" ++ p.2.display) = "" := by
  rw [String.ext_iff, render_data]
  simp

/-- Splitting a comma-join on `','` recovers the chunk list when no
chunk contains a comma. -/
theorem splitChar_comma_join (rs : List String) (r : String)
    (hr : ',' ∉ r.data) (hrs : ∀ s ∈ rs, ',' ∉ s.data) :
    splitChar ',' (r ++ joinTail rs) = r :: rs := by
  induction rs generalizing r with
  | nil =>
    show splitChar ',' (r ++ "") = [r]
    rw [String.append_empty]
    exact splitChar_eq_single ',' r hr
  | cons s rest ih =>
    have hdata : (r ++ joinTail (s :: rest)).data =
        r.data ++ ',' :: (s ++ joinTail rest).data := by
      show r.data ++ (((',' :: []) ++ s.data) ++ (joinTail rest).data) =
        r.data ++ ',' :: (s.data ++ (joinTail rest).data)
      simp
    unfold splitChar
    rw [hdata, splitCharAux_sep ',' r.data _ [] hr, List.map_cons]
    have ihx := ih s (hrs s (List.mem_cons_self s rest))
      (fun x hx => hrs x (List.mem_cons_of_mem _ hx))
    unfold splitChar at ihx
    rw [ihx]
    simp

/-- The entry loop over rendered entries re-inserts every pattern with
severity `Info`. -/
theorem parseEntries_render (tb : List (String × Level))
    (levels : List (String × Level))
    (hcl : ∀ p ∈ tb, ':' ∉ (p.1 : String).data) :
    parseEntries (tb.map (fun p => p.1 ++ ":" ++ p.2.display)) levels =
      .ok (tb.foldl (fun acc p => insertLevel acc p.1 .Info) levels) := by
  induction tb generalizing levels with
  | nil => rfl
  | cons p rest ih =>
    rw [List.map_cons, List.foldl_cons]
    have hsp : splitChar ':' (p.1 ++ ":" ++ p.2.display) =
        [p.1, p.2.display] :=
      splitChar_colon_append _ _ (hcl p (List.mem_cons_self _ _))
        (display_no_colon p.2)
    simp only [parseEntries, render_ne_empty p, ite_false, if_neg,
      hsp, abbrevToLevel_display]
    exact ih _ (fun x hx => hcl x (List.mem_cons_of_mem _ hx))

/-- Folding insert-overwrite over fresh, pairwise-distinct keys appends
the entries in order. -/
theorem foldl_insert_fresh (tb : List (String × Level))
    (acc : List (String × Level))
    (hdisj : ∀ p ∈ tb, ∀ q ∈ acc, q.1 ≠ p.1)
    (hnodup : (tb.map Prod.fst).Nodup) :
    tb.foldl (fun acc p => insertLevel acc p.1 .Info) acc =
      acc ++ tb.map (fun p => (p.1, Level.Info)) := by
  induction tb generalizing acc with
  | nil => simp
  | cons p rest ih =>
    rw [List.map_cons] at hnodup
    have hnotin : p.1 ∉ rest.map Prod.fst := (List.nodup_cons.mp hnodup).1
    rw [List.foldl_cons, List.map_cons]
    have hf : acc.filter (fun q => !(q.1 == p.1)) = acc :=
      List.filter_eq_self.mpr (fun q hq => by
        simp [hdisj p (List.mem_cons_self _ _) q hq])
    have hins : insertLevel acc p.1 .Info = acc ++ [(p.1, Level.Info)] := by
      unfold insertLevel
      rw [hf]
    have hdisj' : ∀ x ∈ rest, ∀ q ∈ acc ++ [(p.1, Level.Info)], q.1 ≠ x.1 := by
      intro x hx q hq
      rcases List.mem_append.mp hq with hq | hq
      · exact hdisj x (List.mem_cons_of_mem _ hx) q hq
      · have hqp : q = (p.1, Level.Info) := by simpa using hq
        rw [hqp]
        intro heq
        exact hnotin (heq ▸ List.mem_map_of_mem Prod.fst hx)
    rw [hins, ih (acc ++ [(p.1, Level.Info)]) hdisj' (List.nodup_cons.mp hnodup).2]
    simp

/-- C3 counterexample: the table parsed from `"a:E"` serializes to
`"a:ERROR"`, which re-parses with severity Info instead of Error — the
round trip does not preserve the pattern-to-severity mapping. -/
theorem C3_counterexample :
    parse_level_strings ["a:E"] = .ok [("a", .Error)] ∧
    levels_to_string [("a", .Error)] = "a:ERROR" ∧
    parse_level_strings [levels_to_string [("a", .Error)]] =
      .ok [("a", .Info)] ∧
    ¬([("a", Level.Info)] : List (String × Level)) = [("a", .Error)] := by
  decide

/-- C3 amended: re-parsing the serialized form of a table (with
comma- and colon-free, pairwise-distinct patterns) yields a table with
the same patterns but every severity replaced by Info, because the
serializer emits full upper-case severity names that the parser does not
recognize.  The mapping is preserved only when every severity is
already Info. -/
theorem C3_roundtrip (tb : List (String × Level))
    (hnodup : (tb.map Prod.fst).Nodup)
    (hcm : ∀ p ∈ tb, ',' ∉ (p.1 : String).data)
    (hcl : ∀ p ∈ tb, ':' ∉ (p.1 : String).data) :
    parse_level_strings [levels_to_string tb] =
      .ok (tb.map (fun p => (p.1, Level.Info))) := by
  cases tb with
  | nil => decide
  | cons p rest =>
    rw [levels_to_string_cons]
    have hsplit : splitChar ','
        ((p.1 ++ ":" ++ p.2.display) ++
          joinTail (rest.map (fun q => q.1 ++ ":" ++ q.2.display))) =
        (p.1 ++ ":" ++ p.2.display) ::
          rest.map (fun q => q.1 ++ ":" ++ q.2.display) :=
      splitChar_comma_join _ _
        (render_no_comma p (hcm p (List.mem_cons_self _ _)))
        (fun s hs => by
          obtain ⟨q, hq, rfl⟩ := List.mem_map.mp hs
          exact render_no_comma q (hcm q (List.mem_cons_of_mem _ hq)))
    unfold parse_level_strings parseSpecs
    rw [hsplit]
    rw [show (p.1 ++ ":" ++ p.2.display) ::
        rest.map (fun q => q.1 ++ ":" ++ q.2.display) =
        (p :: rest).map (fun q => q.1 ++ ":" ++ q.2.display) from rfl]
    rw [parseEntries_render _ _ hcl]
    rw [foldl_insert_fresh _ []
      (fun x hx q hq => absurd hq (List.not_mem_nil q)) hnodup]
    simp [parseSpecs]

/-- Witness for C3 at the one-entry table `{"a" ↦ Error}`. -/
theorem C3_roundtrip_witness :
    parse_level_strings [levels_to_string [("a", .Error)]] =
      .ok (([("a", Level.Error)] : List (String × Level)).map
        (fun p => (p.1, Level.Info))) :=
  C3_roundtrip [("a", .Error)] (by decide) (by decide) (by decide)

end Shvlog
